import Mathlib

/-!
Verification of the Smart_Produce_data ingestion pipeline.

The repository fetches environmental time series from several upstream
providers (ERA5, NASA POWER, Open-Meteo, IPMA) and incrementally merges each
fetch into a per-provider CSV store keyed by timestamp.  This file gives a
shallow embedding of the pure logic of those scripts — the pandas merge idiom
(`pd.concat` + `drop_duplicates` + `sort_values`), the chunked fetch loops,
the nearest-grid-point resolver, the daily aggregation / unit conversion
stages, the UV-index enrichment joiner, and the empty-range planner — and
proves or refutes the specification's claims about them.

Modelling conventions:
  * a DataFrame row becomes a structure; a DataFrame becomes a `List` of rows
    (pandas row order is list order);
  * timestamps/dates are `Nat` (days, or hours for sub-daily data);
  * float columns whose arithmetic matters are `ℚ`; columns whose values are
    only compared for equality are opaque association lists;
  * missing values (`NaN` / `None`) are `Option.none`;
  * the upstream fetch capability is a parameter / explicit input, matching
    the spec's abstraction of HTTP plumbing.
-/

/-! ### Incremental merge store

Sources: `src/scripts/update_era5.py` `main` (lines 244-251),
`src/scripts/update_nasa.py` `main` (lines 84-87), `src/update_ipma.py`
`main` (lines 14-19), `src/scripts/update_openmeteo.py` `save_incremental`
(lines 103-114).
-/

/-- One row of a provider store: a timestamp key (the `date` / `datetime` /
`time` column the scripts dedup on) plus the remaining columns as an
association list of (column name, value).  Values here are only ever moved
around and compared, never computed with, so an opaque `Int` payload
suffices. -/
structure MRow where
  ts : Nat
  vals : List (String × Int)
deriving DecidableEq

/-- The timestamp column of a frame. -/
def timestamps (l : List MRow) : List Nat :=
  l.map (fun r => r.ts)

/-- `t` occurs as a timestamp in `l` (Boolean form, used inside programs). -/
def tsMem (t : Nat) (l : List MRow) : Bool :=
  l.any (fun r => r.ts == t)

/-- pandas `drop_duplicates(subset=[key], keep="last")`: a row survives iff
no later row carries the same key; surviving rows keep their relative
order. -/
def dropDupKeepLast : List MRow → List MRow
  | [] => []
  | r :: rs => if tsMem r.ts rs then dropDupKeepLast rs else r :: dropDupKeepLast rs

/-- pandas `drop_duplicates(subset=[key])` with the default `keep="first"`:
the first row with each key survives, in order. -/
def dropDupKeepFirst : List MRow → List MRow
  | [] => []
  | r :: rs => r :: dropDupKeepFirst (rs.filter (fun s => s.ts ≠ r.ts))
termination_by l => l.length
decreasing_by
  simp only [List.length_cons]
  exact Nat.lt_succ_of_le (List.length_filter_le _ _)

/-- Order on rows by timestamp, used for `sort_values`. -/
def tsle (a b : MRow) : Prop := a.ts ≤ b.ts

instance : DecidableRel tsle := fun a b => inferInstanceAs (Decidable (a.ts ≤ b.ts))

instance : IsTotal MRow tsle := ⟨fun a b => Nat.le_total a.ts b.ts⟩

instance : IsTrans MRow tsle := ⟨fun _ _ _ h h' => Nat.le_trans h h'⟩

/-- Strict version of `tsle`; antisymmetric (vacuously), which is what lets
two sorted deduplicated frames with the same content be proved equal. -/
def tslt (a b : MRow) : Prop := a.ts < b.ts

instance : IsAntisymm MRow tslt :=
  ⟨fun _ _ h h' => absurd (Nat.lt_trans h h') (Nat.lt_irrefl _)⟩

/-- pandas `sort_values(key)`.  In every script the sort runs on a frame with
unique keys (it follows `drop_duplicates`), where every comparison sort
produces the same output, so insertion sort is a faithful model. -/
def sortValues (l : List MRow) : List MRow :=
  List.insertionSort tsle l

/-- `df.loc[df[key] == t]`-style lookup: the first row carrying timestamp
`t`. -/
def findTs (l : List MRow) (t : Nat) : Option MRow :=
  l.find? (fun r => r.ts == t)

/-- `src/scripts/update_era5.py` lines 244-251: `df_all = df_new.copy()` when
the store is empty, otherwise `pd.concat([df_old, df_new])` followed by
`drop_duplicates(subset=["date"], keep="last")`; in both cases
`sort_values("date")` before writing. -/
def merge_era5 (old new : List MRow) : List MRow :=
  sortValues (if old = [] then new else dropDupKeepLast (old ++ new))

/-- `src/scripts/update_nasa.py` lines 84-87:
`pd.concat([df_old, df_new])` then `drop_duplicates(subset=["datetime"],
keep="last")`; the NASA script writes the result without any sort step. -/
def merge_nasa (old new : List MRow) : List MRow :=
  dropDupKeepLast (old ++ new)

/-- `src/update_ipma.py` lines 14-18: when the store file exists,
`pd.concat([old, df_new]).drop_duplicates('datetime').sort_values('datetime')`
(note the *default* `keep="first"`); otherwise the fresh batch is written
as-is.  `none` models a missing store file. -/
def merge_ipma (old : Option (List MRow)) (new : List MRow) : List MRow :=
  match old with
  | none => new
  | some o => sortValues (dropDupKeepFirst (o ++ new))

/-- `src/scripts/update_openmeteo.py` `save_incremental` lines 103-114: when
the store file exists, `pd.concat([old, df])` then
`drop_duplicates(subset=['datetime'])` (default `keep="first"`) then
`sort_values('datetime')`; otherwise the batch is written as-is. -/
def save_incremental (old : Option (List MRow)) (df : List MRow) : List MRow :=
  match old with
  | none => df
  | some o => sortValues (dropDupKeepFirst (o ++ df))

/-! ### Basic lemmas about the merge primitives -/


theorem tsMem_eq_true_iff {t : Nat} {l : List MRow} :
    tsMem t l = true ↔ t ∈ timestamps l := by
  simp [tsMem, timestamps]

theorem tsMem_append {t : Nat} {X Y : List MRow} :
    tsMem t (X ++ Y) = (tsMem t X || tsMem t Y) := by
  simp [tsMem, List.any_append]

theorem dropDupKeepLast_append (X Y : List MRow) :
    dropDupKeepLast (X ++ Y) =
      (dropDupKeepLast X).filter (fun r => !(tsMem r.ts Y)) ++ dropDupKeepLast Y := by
  induction X with
  | nil => simp [dropDupKeepLast]
  | cons r X ih =>
    by_cases h1 : tsMem r.ts X = true
    · simp [dropDupKeepLast, tsMem_append, h1, ih]
    · by_cases h2 : tsMem r.ts Y = true
      · simp [dropDupKeepLast, tsMem_append, h1, h2, ih, List.filter_cons]
      · simp [dropDupKeepLast, tsMem_append, h1, h2, ih, List.filter_cons]

theorem dropDupKeepLast_sublist (l : List MRow) : (dropDupKeepLast l).Sublist l := by
  induction l with
  | nil => exact List.Sublist.refl _
  | cons r rs ih =>
    simp only [dropDupKeepLast]
    by_cases h : tsMem r.ts rs = true
    · rw [if_pos h]
      exact ih.trans (List.sublist_cons_self _ _)
    · rw [if_neg h]
      exact ih.cons₂ r

theorem nodup_timestamps_dropDupKeepLast (l : List MRow) :
    (timestamps (dropDupKeepLast l)).Nodup := by
  induction l with
  | nil => exact List.nodup_nil
  | cons r rs ih =>
    simp only [dropDupKeepLast]
    by_cases h : tsMem r.ts rs = true
    · rw [if_pos h]; exact ih
    · rw [if_neg h]
      refine List.Nodup.cons ?_ ih
      intro hmem
      apply h
      rw [tsMem_eq_true_iff]
      exact ((dropDupKeepLast_sublist rs).map (fun r => r.ts)).subset hmem

theorem dropDupKeepLast_eq_self {l : List MRow} (h : (timestamps l).Nodup) :
    dropDupKeepLast l = l := by
  induction l with
  | nil => rfl
  | cons r rs ih =>
    simp only [timestamps, List.map_cons, List.nodup_cons] at h
    have hts : ¬ tsMem r.ts rs = true := by
      rw [tsMem_eq_true_iff]; exact h.1
    simp only [dropDupKeepLast, if_neg hts]
    rw [ih h.2]

theorem dropDupKeepLast_ne_nil {l : List MRow} (h : l ≠ []) :
    dropDupKeepLast l ≠ [] := by
  induction l with
  | nil => exact absurd rfl h
  | cons r rs ih =>
    simp only [dropDupKeepLast]
    by_cases hm : tsMem r.ts rs = true
    · rw [if_pos hm]
      apply ih
      intro hnil
      rw [hnil] at hm
      simp [tsMem] at hm
    · rw [if_neg hm]
      exact List.cons_ne_nil _ _

theorem mem_dropDupKeepLast_of_unique {r : MRow} {l : List MRow} (hm : r ∈ l)
    (hu : ∀ s ∈ l, s.ts = r.ts → s = r) : r ∈ dropDupKeepLast l := by
  induction l with
  | nil => exact absurd hm (List.not_mem_nil r)
  | cons x xs ih =>
    have hxs : ∀ s ∈ xs, s.ts = r.ts → s = r := fun s hs => hu s (List.mem_cons_of_mem x hs)
    rcases List.mem_cons.mp hm with he | hr
    · subst he
      simp only [dropDupKeepLast]
      by_cases hts : tsMem r.ts xs = true
      · rw [if_pos hts]
        rcases (tsMem_eq_true_iff).mp hts with hmem
        rcases List.mem_map.mp hmem with ⟨s, hs, hsts⟩
        have : s = r := hxs s hs hsts
        subst this
        exact ih hs hxs
      · rw [if_neg hts]
        exact List.mem_cons_self _ _
    · simp only [dropDupKeepLast]
      by_cases hts : tsMem x.ts xs = true
      · rw [if_pos hts]
        exact ih hr hxs
      · rw [if_neg hts]
        exact List.mem_cons_of_mem x (ih hr hxs)

theorem findTs_cons (r : MRow) (l : List MRow) (t : Nat) :
    findTs (r :: l) t = if r.ts = t then some r else findTs l t := by
  simp only [findTs, List.find?_cons]
  by_cases h : r.ts = t
  · simp [h]
  · have hb : (r.ts == t) = false := by simpa using h
    simp [h, hb]

theorem findTs_filter_ne {u t : Nat} (h : u ≠ t) (l : List MRow) :
    findTs (l.filter (fun s => s.ts ≠ u)) t = findTs l t := by
  induction l with
  | nil => rfl
  | cons x l ih =>
    by_cases hx : x.ts = u
    · have : (fun s : MRow => decide (s.ts ≠ u)) x = false := by simp [hx]
      rw [List.filter_cons_of_neg (by simpa using this), findTs_cons, if_neg (by rw [hx]; exact h), ih]
    · rw [List.filter_cons_of_pos (by simpa using hx), findTs_cons, findTs_cons, ih]

theorem findTs_dropDupKeepFirst (l : List MRow) (t : Nat) :
    findTs (dropDupKeepFirst l) t = findTs l t := by
  induction l using dropDupKeepFirst.induct with
  | case1 => rw [dropDupKeepFirst]
  | case2 r rs ih =>
    rw [dropDupKeepFirst, findTs_cons, findTs_cons]
    by_cases h : r.ts = t
    · rw [if_pos h, if_pos h]
    · rw [if_neg h, if_neg h, ih, findTs_filter_ne h rs]

theorem dropDupKeepFirst_sublist (l : List MRow) : (dropDupKeepFirst l).Sublist l := by
  induction l using dropDupKeepFirst.induct with
  | case1 => rw [dropDupKeepFirst]
  | case2 r rs ih =>
    rw [dropDupKeepFirst]
    exact (ih.trans (List.filter_sublist rs)).cons₂ r

theorem nodup_timestamps_dropDupKeepFirst (l : List MRow) :
    (timestamps (dropDupKeepFirst l)).Nodup := by
  induction l using dropDupKeepFirst.induct with
  | case1 => rw [dropDupKeepFirst]; exact List.nodup_nil
  | case2 r rs ih =>
    rw [dropDupKeepFirst]
    simp only [timestamps, List.map_cons]
    refine List.Nodup.cons ?_ ih
    intro hmem
    rcases List.mem_map.mp hmem with ⟨s, hs, hsts⟩
    have hsf : s ∈ rs.filter (fun s => s.ts ≠ r.ts) :=
      (dropDupKeepFirst_sublist _).subset hs
    have := List.of_mem_filter hsf
    simp only [decide_eq_true_eq] at this
    exact this hsts

theorem findTs_eq_some_of_unique {r : MRow} {l : List MRow} (hm : r ∈ l)
    (hu : ∀ s ∈ l, s.ts = r.ts → s = r) : findTs l r.ts = some r := by
  cases hf : findTs l r.ts with
  | none =>
    rw [findTs, List.find?_eq_none] at hf
    exact absurd (by simp : (r.ts == r.ts) = true) (hf r hm)
  | some s =>
    have hp := List.find?_some hf
    have hmem := List.mem_of_find?_eq_some hf
    have : s = r := hu s hmem (by simpa using hp)
    rw [this]

theorem mem_dropDupKeepFirst_of_unique {r : MRow} {l : List MRow} (hm : r ∈ l)
    (hu : ∀ s ∈ l, s.ts = r.ts → s = r) : r ∈ dropDupKeepFirst l := by
  have h1 : findTs (dropDupKeepFirst l) r.ts = some r := by
    rw [findTs_dropDupKeepFirst]
    exact findTs_eq_some_of_unique hm hu
  exact List.mem_of_find?_eq_some h1

theorem sortValues_perm (l : List MRow) : (sortValues l).Perm l :=
  List.perm_insertionSort tsle l

theorem sorted_sortValues (l : List MRow) : List.Sorted tsle (sortValues l) :=
  List.sorted_insertionSort tsle l

theorem sorted_tslt_of_nodup {l : List MRow} (hs : List.Sorted tsle l)
    (hn : (timestamps l).Nodup) : List.Sorted tslt l := by
  have hne : List.Pairwise (fun a b : MRow => a.ts ≠ b.ts) l := List.pairwise_map.mp hn
  exact (hs.and hne).imp (fun h => Nat.lt_of_le_of_ne h.1 h.2)

theorem nodup_timestamps_of_perm {X Y : List MRow} (hp : X.Perm Y)
    (hn : (timestamps X).Nodup) : (timestamps Y).Nodup := by
  simp only [timestamps] at hn ⊢
  exact (hp.map (fun r => r.ts)).nodup hn

theorem eq_of_perm_sorted_nodup {X Y : List MRow} (hp : X.Perm Y)
    (hsX : List.Sorted tsle X) (hsY : List.Sorted tsle Y)
    (hn : (timestamps X).Nodup) : X = Y :=
  List.eq_of_perm_of_sorted hp (sorted_tslt_of_nodup hsX hn)
    (sorted_tslt_of_nodup hsY (nodup_timestamps_of_perm hp hn))

theorem findTs_eq_of_perm_of_nodup {X Y : List MRow} (hp : X.Perm Y)
    (hn : (timestamps X).Nodup) (t : Nat) : findTs X t = findTs Y t := by
  cases hf : findTs X t with
  | none =>
    rw [findTs, List.find?_eq_none] at hf
    rw [findTs, eq_comm, List.find?_eq_none]
    intro y hy
    exact hf y (hp.mem_iff.mpr hy)
  | some r =>
    have hmem : r ∈ X := List.mem_of_find?_eq_some hf
    have hts : r.ts = t := by simpa using List.find?_some hf
    cases hg : findTs Y t with
    | none =>
      rw [findTs, List.find?_eq_none] at hg
      exact absurd (by simpa using hts) (hg r (hp.mem_iff.mp hmem))
    | some s =>
      have hsmem : s ∈ Y := List.mem_of_find?_eq_some hg
      have hsts : s.ts = t := by simpa using List.find?_some hg
      have : s = r :=
        List.inj_on_of_nodup_map hn (hp.mem_iff.mpr hsmem) hmem (by rw [hsts, hts])
      rw [this]

theorem nodup_timestamps_filter (p : MRow → Bool) {l : List MRow}
    (h : (timestamps l).Nodup) : (timestamps (l.filter p)).Nodup := by
  simp only [timestamps] at h ⊢
  exact List.Nodup.sublist ((List.filter_sublist l).map (fun r => r.ts)) h

theorem nodup_timestamps_append {X Y : List MRow}
    (hX : (timestamps X).Nodup) (hY : (timestamps Y).Nodup)
    (hd : ∀ t ∈ timestamps X, t ∉ timestamps Y) :
    (timestamps (X ++ Y)).Nodup := by
  rw [timestamps, List.map_append]
  exact List.nodup_append.mpr ⟨hX, hY, hd⟩


theorem findTs_append (X Y : List MRow) (t : Nat) :
    findTs (X ++ Y) t = (findTs X t).or (findTs Y t) :=
  List.find?_append

theorem findTs_isSome_of_mem {t : Nat} {l : List MRow} (h : t ∈ timestamps l) :
    (findTs l t).isSome := by
  rcases List.mem_map.mp h with ⟨r, hr, hts⟩
  cases hf : findTs l t with
  | none =>
    rw [findTs, List.find?_eq_none] at hf
    exact absurd (by simpa using hts.symm ▸ rfl : (r.ts == t) = true) (hf r hr)
  | some s => rfl

theorem filter_not_tsMem_self (B : List MRow) :
    B.filter (fun r => !(tsMem r.ts B)) = [] := by
  rw [List.filter_eq_nil_iff]
  intro r hr
  have : tsMem r.ts B = true := by
    rw [tsMem_eq_true_iff]
    exact List.mem_map.mpr ⟨r, hr, rfl⟩
  simp [this]

theorem findTs_concat_last {old new : List MRow} {t : Nat}
    (hnew : (timestamps new).Nodup) (ht : t ∈ timestamps new) :
    findTs (dropDupKeepLast (old ++ new)) t = findTs new t := by
  rw [dropDupKeepLast_append, findTs_append]
  have hnone : findTs ((dropDupKeepLast old).filter (fun r => !(tsMem r.ts new))) t = none := by
    rw [findTs, List.find?_eq_none]
    intro r hr hb
    have hts : r.ts = t := by simpa using hb
    have := List.of_mem_filter hr
    rw [hts] at this
    rw [tsMem_eq_true_iff.mpr ht] at this
    simp at this
  rw [hnone, Option.none_or, dropDupKeepLast_eq_self hnew]

theorem findTs_concat_first {old new : List MRow} {t : Nat}
    (ht : t ∈ timestamps old) :
    findTs (dropDupKeepFirst (old ++ new)) t = findTs old t := by
  rw [findTs_dropDupKeepFirst, findTs_append]
  cases hf : findTs old t with
  | none =>
    have := findTs_isSome_of_mem ht
    rw [hf] at this
    simp at this
  | some r => rfl

theorem findTs_sortValues {l : List MRow} (hn : (timestamps l).Nodup) (t : Nat) :
    findTs (sortValues l) t = findTs l t :=
  findTs_eq_of_perm_of_nodup (sortValues_perm l)
    (nodup_timestamps_of_perm (sortValues_perm l).symm hn) t

theorem nodup_timestamps_sortValues {l : List MRow} (hn : (timestamps l).Nodup) :
    (timestamps (sortValues l)).Nodup :=
  nodup_timestamps_of_perm (sortValues_perm l).symm hn

theorem sortValues_ne_nil {l : List MRow} (h : l ≠ []) : sortValues l ≠ [] := by
  intro hnil
  have hlen := (sortValues_perm l).length_eq
  rw [hnil] at hlen
  exact h (List.eq_nil_of_length_eq_zero hlen.symm)

theorem sorted_append_of_cross {old new : List MRow}
    (hold : List.Sorted tsle old) (hnew : List.Sorted tsle new)
    (hcross : ∀ t ∈ timestamps old, ∀ u ∈ timestamps new, t ≤ u) :
    List.Sorted tsle (old ++ new) := by
  rw [List.Sorted, List.pairwise_append]
  refine ⟨hold, hnew, ?_⟩
  intro a ha b hb
  exact hcross a.ts (List.mem_map.mpr ⟨a, ha, rfl⟩) b.ts (List.mem_map.mpr ⟨b, hb, rfl⟩)

/-! ### Claims C1, C2, C3, C10: merge conflict policy, store invariants,
idempotence, and the frame property -/

/-- Counterexample to C1 as stated: merging an incoming IPMA batch carrying
temperature 7 at timestamp 1 into a store carrying temperature 5 at the same
timestamp keeps the *existing* value 5 — the merged result does not contain
the incoming record's values. -/
theorem c1_counterexample :
    merge_ipma (some [⟨1, [("temperature", 5)]⟩]) [⟨1, [("temperature", 7)]⟩] =
      [⟨1, [("temperature", 5)]⟩] ∧
    ([("temperature", 5)] : List (String × Int)) ≠ [("temperature", 7)] := by
  constructor
  · show sortValues (dropDupKeepFirst _) = _
    simp [sortValues, dropDupKeepFirst.eq_def]
  · decide

/-- C1 (amended).  At a timestamp present in both the existing store and the
incoming batch, which value survives the merge depends on the provider: the
scripts-ERA5 and NASA merges use `drop_duplicates(keep="last")`, so the
incoming record's values win; the IPMA and Open-Meteo merges use
`drop_duplicates` with its default `keep="first"`, so the *existing* record's
values win and the incoming record is discarded. -/
theorem c1_theorem {old new : List MRow} {t : Nat}
    (hnew : (timestamps new).Nodup)
    (htold : t ∈ timestamps old) (htnew : t ∈ timestamps new) :
    findTs (merge_era5 old new) t = findTs new t ∧
    findTs (merge_nasa old new) t = findTs new t ∧
    findTs (merge_ipma (some old) new) t = findTs old t ∧
    findTs (save_incremental (some old) new) t = findTs old t := by
  have hold_ne : old ≠ [] := by
    intro h
    rw [h] at htold
    simp [timestamps] at htold
  refine ⟨?_, ?_, ?_, ?_⟩
  · have hu : merge_era5 old new = sortValues (dropDupKeepLast (old ++ new)) := by
      simp only [merge_era5, if_neg hold_ne]
    rw [hu, findTs_sortValues (nodup_timestamps_dropDupKeepLast _),
      findTs_concat_last hnew htnew]
  · exact findTs_concat_last hnew htnew
  · show findTs (sortValues (dropDupKeepFirst (old ++ new))) t = findTs old t
    rw [findTs_sortValues (nodup_timestamps_dropDupKeepFirst _),
      findTs_concat_first htold]
  · show findTs (sortValues (dropDupKeepFirst (old ++ new))) t = findTs old t
    rw [findTs_sortValues (nodup_timestamps_dropDupKeepFirst _),
      findTs_concat_first htold]

/-- Witness for C1: a concrete conflicting timestamp, evaluated on all four
merge functions. -/
theorem c1_witness :
    findTs (merge_era5 [⟨1, [("temperature", 5)]⟩] [⟨1, [("temperature", 7)]⟩]) 1 =
      findTs [⟨1, [("temperature", 7)]⟩] 1 ∧
    findTs (merge_nasa [⟨1, [("temperature", 5)]⟩] [⟨1, [("temperature", 7)]⟩]) 1 =
      findTs [⟨1, [("temperature", 7)]⟩] 1 ∧
    findTs (merge_ipma (some [⟨1, [("temperature", 5)]⟩]) [⟨1, [("temperature", 7)]⟩]) 1 =
      findTs [⟨1, [("temperature", 5)]⟩] 1 ∧
    findTs (save_incremental (some [⟨1, [("temperature", 5)]⟩]) [⟨1, [("temperature", 7)]⟩]) 1 =
      findTs [⟨1, [("temperature", 5)]⟩] 1 :=
  c1_theorem (by decide) (by decide) (by decide)

/-- Counterexample to C2 as stated: a successful first NASA run whose
upstream payload arrives out of order persists an unsorted store, because
`update_nasa.py` has no `sort_values` step. -/
theorem c2_counterexample :
    merge_nasa [] [⟨2, []⟩, ⟨1, []⟩] = [⟨2, []⟩, ⟨1, []⟩] ∧
    ¬ List.Sorted tsle (merge_nasa [] [⟨2, []⟩, ⟨1, []⟩]) := by
  refine ⟨rfl, ?_⟩
  intro h
  rw [(rfl : merge_nasa [] [⟨2, []⟩, ⟨1, []⟩] = [⟨2, []⟩, ⟨1, []⟩])] at h
  exact absurd (List.rel_of_sorted_cons h _ (List.mem_cons_self _ _)) (by decide)

/-- C2 (amended).  For every existing store and every incoming batch —
overlapping or not, in any order:
the NASA, IPMA and Open-Meteo merges leave the store deduplicated by
timestamp unconditionally, and the scripts-ERA5 merge does so as long as the
incoming batch itself is deduplicated (which its `fetch_range` guarantees;
only the empty-store branch needs this);
the three merges that sort before persisting (scripts-ERA5, and IPMA /
Open-Meteo when a store file exists) leave the store sorted ascending
unconditionally;
the NASA merge — whose script never sorts — leaves the store sorted only
when the existing store is sorted and the incoming batch is sorted and lies
strictly after it;
and on a first run (no store file) IPMA / Open-Meteo write the incoming
batch as-is, so the store is then sorted and deduplicated exactly when the
batch is. -/
theorem c2_theorem :
    (∀ old new : List MRow, (timestamps new).Nodup →
      (timestamps (merge_era5 old new)).Nodup) ∧
    (∀ old new : List MRow, (timestamps (merge_nasa old new)).Nodup) ∧
    (∀ old new : List MRow, (timestamps (merge_ipma (some old) new)).Nodup) ∧
    (∀ old new : List MRow, (timestamps (save_incremental (some old) new)).Nodup) ∧
    (∀ old new : List MRow, List.Sorted tsle (merge_era5 old new)) ∧
    (∀ old new : List MRow, List.Sorted tsle (merge_ipma (some old) new)) ∧
    (∀ old new : List MRow, List.Sorted tsle (save_incremental (some old) new)) ∧
    (∀ old new : List MRow, List.Sorted tsle old → List.Sorted tsle new →
      (∀ t ∈ timestamps old, ∀ u ∈ timestamps new, t < u) →
      List.Sorted tsle (merge_nasa old new)) ∧
    (∀ new : List MRow, List.Sorted tsle new → (timestamps new).Nodup →
      (timestamps (merge_ipma none new)).Nodup ∧
        List.Sorted tsle (merge_ipma none new)) := by
  refine ⟨?_, ?_, ?_, ?_, ?_, ?_, ?_, ?_, ?_⟩
  · intro old new hnn
    by_cases h : old = []
    · have hu : merge_era5 old new = sortValues new := by
        simp only [merge_era5, if_pos h]
      rw [hu]
      exact nodup_timestamps_sortValues hnn
    · have hu : merge_era5 old new = sortValues (dropDupKeepLast (old ++ new)) := by
        simp only [merge_era5, if_neg h]
      rw [hu]
      exact nodup_timestamps_sortValues (nodup_timestamps_dropDupKeepLast _)
  · intro old new
    exact nodup_timestamps_dropDupKeepLast _
  · intro old new
    exact nodup_timestamps_sortValues (nodup_timestamps_dropDupKeepFirst _)
  · intro old new
    exact nodup_timestamps_sortValues (nodup_timestamps_dropDupKeepFirst _)
  · intro old new
    exact sorted_sortValues _
  · intro old new
    exact sorted_sortValues _
  · intro old new
    exact sorted_sortValues _
  · intro old new hos hns hcross
    have hle : ∀ t ∈ timestamps old, ∀ u ∈ timestamps new, t ≤ u :=
      fun t ht u hu => Nat.le_of_lt (hcross t ht u hu)
    exact (sorted_append_of_cross hos hns hle).sublist (dropDupKeepLast_sublist _)
  · intro new hns hnn
    exact ⟨hnn, hns⟩

/-- Witness for C2: the conjuncts with hypotheses, instantiated — the
scripts-ERA5 dedup on a *fully overlapping* one-row batch, the NASA
sortedness on a strictly later batch, and a first-run store; plus the
unconditional IPMA conjuncts exercised on an overlapping batch. -/
theorem c2_witness :
    (timestamps (merge_era5 [⟨1, [("temperature", 5)]⟩] [⟨1, [("temperature", 7)]⟩])).Nodup ∧
    (timestamps (merge_ipma (some [⟨1, [("temperature", 5)]⟩])
      [⟨1, [("temperature", 7)]⟩])).Nodup ∧
    List.Sorted tsle (merge_ipma (some [⟨1, [("temperature", 5)]⟩])
      [⟨1, [("temperature", 7)]⟩]) ∧
    List.Sorted tsle (merge_nasa [⟨1, []⟩] [⟨2, []⟩]) ∧
    ((timestamps (merge_ipma none [⟨2, []⟩])).Nodup ∧
      List.Sorted tsle (merge_ipma none [⟨2, []⟩])) :=
  ⟨c2_theorem.1 [⟨1, [("temperature", 5)]⟩] [⟨1, [("temperature", 7)]⟩] (by decide),
   c2_theorem.2.2.1 [⟨1, [("temperature", 5)]⟩] [⟨1, [("temperature", 7)]⟩],
   c2_theorem.2.2.2.2.2.1 [⟨1, [("temperature", 5)]⟩] [⟨1, [("temperature", 7)]⟩],
   c2_theorem.2.2.2.2.2.2.2.1 [⟨1, []⟩] [⟨2, []⟩] (by decide) (by decide) (by decide),
   c2_theorem.2.2.2.2.2.2.2.2 [⟨2, []⟩] (by decide) (by decide)⟩

/-- C3.  The scripts-ERA5 merge is idempotent: merging the same
(deduplicated, as `fetch_range` guarantees) incoming batch a second time
yields a store identical to merging it once — same rows, same order, same
values. -/
theorem c3_theorem {S B : List MRow} (hB : (timestamps B).Nodup) :
    merge_era5 (merge_era5 S B) B = merge_era5 S B := by
  by_cases hS : S = []
  · subst hS
    by_cases hBnil : B = []
    · subst hBnil
      rfl
    · have hM1 : merge_era5 [] B = sortValues B := rfl
      rw [hM1]
      have hM1ne : sortValues B ≠ [] := sortValues_ne_nil hBnil
      simp only [merge_era5, if_neg hM1ne]
      have hM1nodup : (timestamps (sortValues B)).Nodup := nodup_timestamps_sortValues hB
      rw [dropDupKeepLast_append, dropDupKeepLast_eq_self hM1nodup,
        dropDupKeepLast_eq_self hB]
      have hfilter : (sortValues B).filter (fun r => !(tsMem r.ts B)) = [] := by
        rw [List.filter_eq_nil_iff]
        intro r hr
        have hrB : r ∈ B := (sortValues_perm B).subset hr
        have ht : tsMem r.ts B = true :=
          tsMem_eq_true_iff.mpr (List.mem_map.mpr ⟨r, hrB, rfl⟩)
        simp [ht]
      rw [hfilter, List.nil_append]
  · have hM1 : merge_era5 S B = sortValues (dropDupKeepLast (S ++ B)) := by
      simp only [merge_era5, if_neg hS]
    rw [hM1]
    have hSBne : S ++ B ≠ [] := by
      intro h
      exact hS (List.append_eq_nil.mp h).1
    have hDne : dropDupKeepLast (S ++ B) ≠ [] := dropDupKeepLast_ne_nil hSBne
    have hM1ne : sortValues (dropDupKeepLast (S ++ B)) ≠ [] := sortValues_ne_nil hDne
    simp only [merge_era5, if_neg hM1ne]
    have hDnodup : (timestamps (dropDupKeepLast (S ++ B))).Nodup :=
      nodup_timestamps_dropDupKeepLast _
    have hM1nodup : (timestamps (sortValues (dropDupKeepLast (S ++ B)))).Nodup :=
      nodup_timestamps_sortValues hDnodup
    rw [dropDupKeepLast_append, dropDupKeepLast_eq_self hM1nodup,
      dropDupKeepLast_eq_self hB]
    have hDsplit : dropDupKeepLast (S ++ B) =
        (dropDupKeepLast S).filter (fun r => !(tsMem r.ts B)) ++ B := by
      rw [dropDupKeepLast_append, dropDupKeepLast_eq_self hB]
    have hfperm :
        ((sortValues (dropDupKeepLast (S ++ B))).filter (fun r => !(tsMem r.ts B))).Perm
          ((dropDupKeepLast (S ++ B)).filter (fun r => !(tsMem r.ts B))) :=
      (sortValues_perm _).filter _
    have hDfilter : (dropDupKeepLast (S ++ B)).filter (fun r => !(tsMem r.ts B)) =
        (dropDupKeepLast S).filter (fun r => !(tsMem r.ts B)) := by
      conv_lhs => rw [hDsplit]
      rw [List.filter_append, filter_not_tsMem_self, List.append_nil, List.filter_filter]
      congr 1
      funext r
      rw [Bool.and_self]
    rw [hDfilter] at hfperm
    have hperm :
        ((sortValues (dropDupKeepLast (S ++ B))).filter (fun r => !(tsMem r.ts B)) ++ B).Perm
          (dropDupKeepLast (S ++ B)) := by
      nth_rewrite 2 [hDsplit]
      exact hfperm.append_right B
    refine eq_of_perm_sorted_nodup ?_ (sorted_sortValues _) (sorted_sortValues _) ?_
    · exact (sortValues_perm _).trans (hperm.trans (sortValues_perm _).symm)
    · exact nodup_timestamps_of_perm ((sortValues_perm _).trans hperm).symm hDnodup

/-- Witness for C3: concrete non-overlapping store and batch. -/
theorem c3_witness :
    merge_era5 (merge_era5 [⟨1, [("temperature", 5)]⟩] [⟨2, [("temperature", 7)]⟩])
        [⟨2, [("temperature", 7)]⟩] =
      merge_era5 [⟨1, [("temperature", 5)]⟩] [⟨2, [("temperature", 7)]⟩] :=
  c3_theorem (by decide)

/-- C10.  Every record of a (timestamp-deduplicated) existing store whose
timestamp does not occur in the incoming batch survives each provider's
merge with all of its field values unchanged. -/
theorem c10_theorem {old new : List MRow} {r : MRow}
    (hold : (timestamps old).Nodup) (hr : r ∈ old) (hts : r.ts ∉ timestamps new) :
    r ∈ merge_era5 old new ∧ r ∈ merge_nasa old new ∧
    r ∈ merge_ipma (some old) new ∧ r ∈ save_incremental (some old) new := by
  have hold_ne : old ≠ [] := by
    intro h
    subst h
    exact absurd hr (List.not_mem_nil r)
  have huniq : ∀ s ∈ old ++ new, s.ts = r.ts → s = r := by
    intro s hs hts'
    rcases List.mem_append.mp hs with h | h
    · exact List.inj_on_of_nodup_map hold h hr hts'
    · exact absurd (hts' ▸ List.mem_map.mpr ⟨s, h, rfl⟩) hts
  have hmem : r ∈ old ++ new := List.mem_append_left _ hr
  have hu : merge_era5 old new = sortValues (dropDupKeepLast (old ++ new)) := by
    simp only [merge_era5, if_neg hold_ne]
  refine ⟨?_, ?_, ?_, ?_⟩
  · rw [hu]
    exact (sortValues_perm _).mem_iff.mpr (mem_dropDupKeepLast_of_unique hmem huniq)
  · exact mem_dropDupKeepLast_of_unique hmem huniq
  · exact (sortValues_perm _).mem_iff.mpr (mem_dropDupKeepFirst_of_unique hmem huniq)
  · exact (sortValues_perm _).mem_iff.mpr (mem_dropDupKeepFirst_of_unique hmem huniq)

/-- Witness for C10: a store row at timestamp 1 survives a merge with a
batch at timestamp 2 in all four merge functions. -/
theorem c10_witness :
    (⟨1, [("temperature", 5)]⟩ : MRow) ∈ merge_era5 [⟨1, [("temperature", 5)]⟩] [⟨2, []⟩] ∧
    (⟨1, [("temperature", 5)]⟩ : MRow) ∈ merge_nasa [⟨1, [("temperature", 5)]⟩] [⟨2, []⟩] ∧
    (⟨1, [("temperature", 5)]⟩ : MRow) ∈ merge_ipma (some [⟨1, [("temperature", 5)]⟩]) [⟨2, []⟩] ∧
    (⟨1, [("temperature", 5)]⟩ : MRow) ∈
      save_incremental (some [⟨1, [("temperature", 5)]⟩]) [⟨2, []⟩] :=
  c10_theorem (by decide) (by decide) (by decide)

/-! ### Chunked fetch loops

Sources: `src/scripts/update_era5.py` `fetch_range` (lines 174-213),
`src/update_era5.py` `main` (lines 134-148), `src/scripts/update_nasa.py`
`main` (lines 56-68).
-/

/-- Result of fetching and processing one window: a parsed frame (possibly
empty — "no data rows parsed" windows contribute nothing), an exception
(network error / malformed payload), or a payload below the 10 000-byte
plausibility threshold. -/
inductive FetchOutcome where
  | ok (rows : List MRow)
  | failed
  | tooSmall
deriving DecidableEq

/-- The window loop of `scripts/update_era5.py` `fetch_range` (and of
`update_nasa.py` `main`): an exception or a too-small payload makes the loop
`continue` with the next window; successful frames are concatenated in
window order. -/
def fetch_range_collect : List FetchOutcome → List MRow
  | [] => []
  | .ok rows :: rest => rows ++ fetch_range_collect rest
  | .failed :: rest => fetch_range_collect rest
  | .tooSmall :: rest => fetch_range_collect rest

/-- Full `fetch_range` (line 212): the concatenated frames are passed through
`drop_duplicates(subset=["date"])` (default `keep="first"`) before being
returned. -/
def fetch_range_model (outs : List FetchOutcome) : List MRow :=
  dropDupKeepFirst (fetch_range_collect outs)

/-- The window loop of `src/update_era5.py` `main` lines 138-148: the
`except` clause executes `break`, so the first failing window stops the loop
and later windows are never fetched (the too-small check in `fetch_chunk`
raises, hence also breaks). -/
def root_era5_loop : List FetchOutcome → List MRow
  | [] => []
  | .ok rows :: rest => rows ++ root_era5_loop rest
  | .failed :: _ => []
  | .tooSmall :: _ => []

/-- Counterexample to C4 as stated: in `src/update_era5.py` (one of the two
loops the claim cites), a plan of three windows whose second window fails
yields only the first window's data — the third window, although it would
succeed, is never processed, so the merged store omits its data. -/
theorem c4_counterexample :
    root_era5_loop [.ok [⟨1, []⟩], .failed, .ok [⟨3, []⟩]] = [⟨1, []⟩] ∧
    (⟨3, []⟩ : MRow) ∉ root_era5_loop [.ok [⟨1, []⟩], .failed, .ok [⟨3, []⟩]] := by
  decide

/-- C4 (amended).  In `scripts/update_era5.py` (and `update_nasa.py`) a
failing or too-small window is skipped in isolation: the collected result is
exactly the collection over the remaining windows, every record of every
succeeding window reaches the collected batch, and (fourth conjunct) reaches
the returned deduplicated frame whenever its timestamp is unique in the
collected batch.  In `src/update_era5.py`, by contrast, the loop breaks at
the first failure: with any prefix of succeeding windows before the failure,
the result is just that prefix's data, and succeeding windows after the
failure are dropped. -/
theorem c4_theorem :
    (∀ pre post : List FetchOutcome,
      fetch_range_collect (pre ++ .failed :: post) =
        fetch_range_collect pre ++ fetch_range_collect post) ∧
    (∀ pre post : List FetchOutcome,
      fetch_range_collect (pre ++ .tooSmall :: post) =
        fetch_range_collect pre ++ fetch_range_collect post) ∧
    (∀ (ds : List (List MRow)) (post : List FetchOutcome),
      root_era5_loop (ds.map .ok ++ .failed :: post) = ds.flatten) ∧
    (∀ (outs : List FetchOutcome) (r : MRow) (rows : List MRow),
      FetchOutcome.ok rows ∈ outs → r ∈ rows → r ∈ fetch_range_collect outs) ∧
    (∀ (outs : List FetchOutcome) (r : MRow) (rows : List MRow),
      FetchOutcome.ok rows ∈ outs → r ∈ rows →
      (∀ s ∈ fetch_range_collect outs, s.ts = r.ts → s = r) →
      r ∈ fetch_range_model outs) := by
  have hmem : ∀ (outs : List FetchOutcome) (r : MRow) (rows : List MRow),
      FetchOutcome.ok rows ∈ outs → r ∈ rows → r ∈ fetch_range_collect outs := by
    intro outs r rows hin hr
    induction outs with
    | nil => exact absurd hin (List.not_mem_nil _)
    | cons o rest ih =>
      rcases List.mem_cons.mp hin with he | hrest
      · subst he
        exact List.mem_append_left _ hr
      · cases o with
        | ok rows' => exact List.mem_append_right _ (ih hrest)
        | failed => exact ih hrest
        | tooSmall => exact ih hrest
  refine ⟨?_, ?_, ?_, hmem, ?_⟩
  · intro pre post
    induction pre with
    | nil => rfl
    | cons o rest ih =>
      cases o with
      | ok rows => simp only [List.cons_append, fetch_range_collect, List.append_eq, ih, List.append_assoc]
      | failed => simpa only [List.cons_append, fetch_range_collect] using ih
      | tooSmall => simpa only [List.cons_append, fetch_range_collect] using ih
  · intro pre post
    induction pre with
    | nil => rfl
    | cons o rest ih =>
      cases o with
      | ok rows => simp only [List.cons_append, fetch_range_collect, List.append_eq, ih, List.append_assoc]
      | failed => simpa only [List.cons_append, fetch_range_collect] using ih
      | tooSmall => simpa only [List.cons_append, fetch_range_collect] using ih
  · intro ds post
    induction ds with
    | nil => rfl
    | cons d rest ih =>
      simp only [List.map_cons, List.cons_append, root_era5_loop, List.append_eq, ih, List.flatten_cons]
  · intro outs r rows hin hr huniq
    exact mem_dropDupKeepFirst_of_unique (hmem outs r rows hin hr) huniq

/-- Witness for C4: the three-window plan from the spec's test property,
with window 2 failing, instantiated in both loop models. -/
theorem c4_witness :
    fetch_range_collect [.ok [⟨1, []⟩], .failed, .ok [⟨3, []⟩]] =
      fetch_range_collect [.ok [⟨1, []⟩]] ++ fetch_range_collect [.ok [⟨3, []⟩]] ∧
    (⟨3, []⟩ : MRow) ∈ fetch_range_collect [.ok [⟨1, []⟩], .failed, .ok [⟨3, []⟩]] ∧
    (⟨3, []⟩ : MRow) ∈ fetch_range_model [.ok [⟨1, []⟩], .failed, .ok [⟨3, []⟩]] ∧
    root_era5_loop [.ok [⟨1, []⟩], .failed, .ok [⟨3, []⟩]] = [[⟨1, []⟩]].flatten :=
  ⟨c4_theorem.1 [.ok [⟨1, []⟩]] [.ok [⟨3, []⟩]],
   c4_theorem.2.2.2.1 _ ⟨3, []⟩ [⟨3, []⟩] (by decide) (by decide),
   c4_theorem.2.2.2.2 _ ⟨3, []⟩ [⟨3, []⟩] (by decide) (by decide) (by decide),
   c4_theorem.2.2.1 [[⟨1, []⟩]] [.ok [⟨3, []⟩]]⟩

/-! ### Update planners and the empty-range short-circuit

Sources: `src/scripts/update_era5.py` `main` (lines 216-252),
`src/scripts/update_nasa.py` `main` (lines 40-90).  Dates are modelled as
day numbers; NASA's `"%Y%m%d"` strings compare lexicographically exactly as
the day numbers compare.
-/

/-- Next fetch start, as both scripts compute it: one day after the newest
stored timestamp, or the fixed epoch (`2024-01-01`) when there is no store
yet.  `none` models a missing store file. -/
def next_fetch_start (epoch : Nat) (store : Option (List MRow)) : Nat :=
  match store with
  | none => epoch
  | some s =>
    match (timestamps s).max? with
    | none => epoch
    | some m => m + 1

/-- One scripts-ERA5 run, `main` lines 216-252.  `plan` stands for the
by-month window grouping of `fetch_range`, `fetch` for one `c.retrieve` plus
processing.  Result: (persisted store, number of fetch calls issued, whether
the "Nothing new to fetch" message was reported).  The end date is
`today - 5` (the five-day latency buffer); when `start > end` the run
returns before building any window. -/
def era5_run (today epoch : Nat) (store : Option (List MRow))
    (plan : Nat → Nat → List (Nat × Nat)) (fetch : Nat × Nat → FetchOutcome) :
    List MRow × Nat × Bool :=
  let endD := today - 5
  let start := next_fetch_start epoch store
  if endD < start then (store.getD [], 0, true)
  else
    let dfnew := fetch_range_model ((plan start endD).map fetch)
    (if dfnew = [] then store.getD [] else merge_era5 (store.getD []) dfnew,
      (plan start endD).length, false)

/-- One NASA run, `update_nasa.py` `main` lines 40-90: same five-day lag
buffer and start computation; window failures are skipped; if no window
succeeded the store is untouched, otherwise the concatenated frames are
merged with `merge_nasa`. -/
def nasa_run (today epoch : Nat) (store : Option (List MRow))
    (plan : Nat → Nat → List (Nat × Nat)) (fetch : Nat × Nat → FetchOutcome) :
    List MRow × Nat × Bool :=
  let endD := today - 5
  let start := next_fetch_start epoch store
  if endD < start then (store.getD [], 0, true)
  else
    let frames := ((plan start endD).map fetch).filterMap
      (fun o => match o with | .ok rows => some rows | _ => none)
    (if frames = [] then store.getD [] else merge_nasa (store.getD []) frames.flatten,
      (plan start endD).length, false)

/-- C9.  Whenever the computed fetch start date lies strictly after the
computed fetch end date, both the scripts-ERA5 run and the NASA run issue
zero fetch calls, report the "nothing to update" message, and leave the
persisted store unchanged — for every planner and every fetcher. -/
theorem c9_theorem (today epoch : Nat) (store : Option (List MRow))
    (plan : Nat → Nat → List (Nat × Nat)) (fetch : Nat × Nat → FetchOutcome)
    (h : today - 5 < next_fetch_start epoch store) :
    era5_run today epoch store plan fetch = (store.getD [], 0, true) ∧
    nasa_run today epoch store plan fetch = (store.getD [], 0, true) := by
  constructor
  · simp only [era5_run, if_pos h]
  · simp only [nasa_run, if_pos h]

/-- Witness for C9: a store current through day 100 and a today of day 50
(so start 101 > end 45), with a planner and fetcher that would be visible in
the result if they were ever consulted. -/
theorem c9_witness :
    era5_run 50 0 (some [⟨100, []⟩]) (fun a b => [(a, b)]) (fun _ => .failed) =
      ([⟨100, []⟩], 0, true) ∧
    nasa_run 50 0 (some [⟨100, []⟩]) (fun a b => [(a, b)]) (fun _ => .failed) =
      ([⟨100, []⟩], 0, true) :=
  c9_theorem 50 0 (some [⟨100, []⟩]) (fun a b => [(a, b)]) (fun _ => .failed)
    (by decide)

/-! ### Enrichment joiner (UV index)

Source: `src/scripts/update_openmeteo.py` `add_uv_to_df` (lines 78-92) with
`fetch_nasa_uv_daily` abstracted as its parsed result: a list of
(date key, uv value) pairs, empty when the fetch failed or carried no UV
data.  A primary row is its hourly timestamp plus the `uv_index` column
(`none` = NaN); the other Open-Meteo columns are untouched by the joiner and
omitted from the model.
-/

/-- One row of the primary Open-Meteo batch. -/
structure PRow where
  datetime : Nat
  uv : Option ℚ
deriving DecidableEq

/-- `uv_df.set_index('date')['uv_index'].to_dict()` followed by `.map`:
a duplicate date key keeps the last value (later dict insertions
overwrite), and a missing key yields `None`/NaN. -/
def uv_dict_lookup (m : List (Nat × ℚ)) (d : Nat) : Option ℚ :=
  (m.reverse.find? (fun p => p.1 == d)).map (fun p => p.2)

/-- `add_uv_to_df`: a no-op returning `(df, false)` — the `false` records
that no secondary fetch was performed — when the `uv_index` column exists
and *any* row is non-missing; otherwise the fetch runs (`true`), and the
column is rebuilt row by row from the date-keyed mapping (all-`None` when
the fetch came back empty). -/
def add_uv_to_df (hasUvCol : Bool) (df : List PRow) (uvFetch : List (Nat × ℚ)) :
    List PRow × Bool :=
  if hasUvCol && df.any (fun r => r.uv.isSome) then (df, false)
  else if uvFetch = [] then (df.map (fun r => ⟨r.datetime, none⟩), true)
  else (df.map (fun r => ⟨r.datetime, uv_dict_lookup uvFetch (r.datetime / 24)⟩), true)

theorem uv_dict_lookup_eq_none {m : List (Nat × ℚ)} {d : Nat}
    (h : d ∉ m.map (fun p => p.1)) : uv_dict_lookup m d = none := by
  have hf : m.reverse.find? (fun p => p.1 == d) = none := by
    rw [List.find?_eq_none]
    intro p hp hb
    exact h (List.mem_map.mpr ⟨p, List.mem_reverse.mp hp, by simpa using hb⟩)
  rw [uv_dict_lookup, hf, Option.map_none']

/-- Counterexample to C5 as stated: the empty primary batch has its target
field vacuously densely populated (every row non-missing), yet the joiner
still performs the secondary fetch, because the code's no-op guard is
`notna().any()`, which is `False` on an empty column. -/
theorem c5_counterexample :
    (∀ r ∈ ([] : List PRow), r.uv.isSome = true) ∧
    (add_uv_to_df true [] [(0, 5)]).2 = true := by
  constructor
  · intro r hr
    exact absurd hr (List.not_mem_nil r)
  · decide

/-- C5 (amended).  For every *nonempty* primary batch whose `uv_index`
column is present and fully populated, the joiner returns the batch
unchanged and performs no secondary fetch; and whenever the join does run,
a primary row whose date key is absent from the secondary mapping receives
a missing value — never zero, never an error. -/
theorem c5_theorem :
    (∀ (df : List PRow) (uvFetch : List (Nat × ℚ)), df ≠ [] →
      (∀ r ∈ df, r.uv.isSome = true) →
      add_uv_to_df true df uvFetch = (df, false)) ∧
    (∀ (hasUvCol : Bool) (df : List PRow) (uvFetch : List (Nat × ℚ)) (i : Nat)
        (r : PRow),
      (hasUvCol && df.any (fun s => s.uv.isSome)) = false →
      df[i]? = some r →
      (r.datetime / 24) ∉ uvFetch.map (fun p => p.1) →
      (add_uv_to_df hasUvCol df uvFetch).1[i]? = some ⟨r.datetime, none⟩) := by
  constructor
  · intro df uvFetch hne hall
    have hany : df.any (fun r => r.uv.isSome) = true := by
      cases df with
      | nil => exact absurd rfl hne
      | cons x xs =>
        rw [List.any_cons, hall x (List.mem_cons_self _ _), Bool.true_or]
    rw [add_uv_to_df, if_pos (by rw [hany, Bool.and_true])]
  · intro hasUvCol df uvFetch i r hguard hi hkey
    rw [add_uv_to_df, if_neg (by rw [hguard]; exact Bool.false_ne_true)]
    by_cases hf : uvFetch = []
    · simp only [if_pos hf, List.getElem?_map, hi, Option.map_some']
    · simp only [if_neg hf, List.getElem?_map, hi, Option.map_some',
        uv_dict_lookup_eq_none hkey]

/-- Witness for C5: a populated singleton batch is returned untouched with
no fetch; and with the column absent, a row whose date key (0) is missing
from the mapping (keyed 5 only) is joined to a missing value. -/
theorem c5_witness :
    add_uv_to_df true [⟨0, some 3⟩] [(5, 7)] = ([⟨0, some 3⟩], false) ∧
    (add_uv_to_df false [⟨0, none⟩] [(5, 7)]).1[0]? = some ⟨0, none⟩ :=
  ⟨c5_theorem.1 [⟨0, some 3⟩] [(5, 7)] (by decide) (by decide),
   c5_theorem.2 false [⟨0, none⟩] [(5, 7)] 0 ⟨0, none⟩ (by decide) (by decide)
     (by decide)⟩

/-! ### Spatial resolver

Source: `src/scripts/update_era5.py` `_select_nearest_point` (lines 80-93).
Grid coordinates and targets are exact rationals; `ratAbs`/`ratMin` are
`np.abs`/`np.minimum`, `pyMod` is Python's `%` on rationals (used for
`lon % 360`), and `argmin_idx` is `np.nanargmin` on a NaN-free axis: the
first index attaining the minimum.
-/

def pyMod (x m : ℚ) : ℚ := x - m * ⌊x / m⌋

def ratAbs (x : ℚ) : ℚ := if x < 0 then -x else x

def ratMin (a b : ℚ) : ℚ := if a ≤ b then a else b

def argmin_idx : List ℚ → Nat
  | [] => 0
  | [_] => 0
  | x :: y :: rest =>
    let j := argmin_idx (y :: rest)
    if x ≤ (y :: rest).getD j 0 then 0 else j + 1

/-- `lat_idx = int(np.nanargmin(np.abs(lat_vals - lat)))`. -/
def select_lat_idx (latVals : List ℚ) (lat : ℚ) : Nat :=
  argmin_idx (latVals.map (fun c => ratAbs (c - lat)))

/-- `lon_idx = int(np.nanargmin(np.minimum(np.abs(lon_vals - lon),
np.abs(lon_vals - lon360))))` with `lon360 = lon % 360`. -/
def select_lon_idx (lonVals : List ℚ) (lon : ℚ) : Nat :=
  argmin_idx (lonVals.map (fun c => ratMin (ratAbs (c - lon)) (ratAbs (c - pyMod lon 360))))

theorem argmin_idx_spec (xs : List ℚ) : xs ≠ [] →
    argmin_idx xs < xs.length ∧
    ∀ j < xs.length, xs.getD (argmin_idx xs) 0 ≤ xs.getD j 0 := by
  induction xs with
  | nil => intro h; exact absurd rfl h
  | cons x xs ih =>
    intro _
    cases xs with
    | nil =>
      refine ⟨Nat.zero_lt_one, ?_⟩
      intro j hj
      have hj0 : j = 0 := Nat.lt_one_iff.mp hj
      subst hj0
      exact le_refl _
    | cons y rest =>
      obtain ⟨ihlt, ihle⟩ := ih (List.cons_ne_nil y rest)
      simp only [argmin_idx]
      by_cases hle : x ≤ (y :: rest).getD (argmin_idx (y :: rest)) 0
      · rw [if_pos hle]
        refine ⟨Nat.succ_pos _, ?_⟩
        intro k hk
        cases k with
        | zero => exact le_refl _
        | succ n =>
          rw [List.getD_cons_zero, List.getD_cons_succ]
          exact le_trans hle (ihle n (Nat.lt_of_succ_lt_succ hk))
      · rw [if_neg hle]
        refine ⟨Nat.succ_lt_succ ihlt, ?_⟩
        intro k hk
        cases k with
        | zero =>
          rw [List.getD_cons_succ, List.getD_cons_zero]
          exact le_of_lt (lt_of_not_le hle)
        | succ n =>
          rw [List.getD_cons_succ, List.getD_cons_succ]
          exact ihle n (Nat.lt_of_succ_lt_succ hk)

theorem getD_map_of_lt (f : ℚ → ℚ) (l : List ℚ) {i : Nat} (h : i < l.length) :
    (l.map f).getD i 0 = f (l.getD i 0) := by
  rw [List.getD_eq_getElem?_getD, List.getD_eq_getElem?_getD, List.getElem?_map,
    List.getElem?_eq_getElem h]
  rfl

/-- C6.  For every grid axis, `_select_nearest_point` picks a valid latitude
index whose distance `|lat_value − LAT|` is minimal, and a valid longitude
index minimizing, per candidate, the lesser of the signed-domain distance
and the wrapped `[0,360]`-convention distance; in particular for grid
longitudes `[-8.0, -7.9, -7.8]` and target `-7.91` it selects index 1,
i.e. `-7.9`. -/
theorem c6_theorem :
    (∀ (latVals : List ℚ) (lat : ℚ), latVals ≠ [] →
      select_lat_idx latVals lat < latVals.length ∧
      ∀ j < latVals.length,
        ratAbs (latVals.getD (select_lat_idx latVals lat) 0 - lat) ≤
          ratAbs (latVals.getD j 0 - lat)) ∧
    (∀ (lonVals : List ℚ) (lon : ℚ), lonVals ≠ [] →
      select_lon_idx lonVals lon < lonVals.length ∧
      ∀ j < lonVals.length,
        ratMin (ratAbs (lonVals.getD (select_lon_idx lonVals lon) 0 - lon))
            (ratAbs (lonVals.getD (select_lon_idx lonVals lon) 0 - pyMod lon 360)) ≤
          ratMin (ratAbs (lonVals.getD j 0 - lon))
            (ratAbs (lonVals.getD j 0 - pyMod lon 360))) ∧
    select_lon_idx [-8, -79/10, -78/10] (-791/100) = 1 ∧
    [(-8 : ℚ), -79/10, -78/10].getD (select_lon_idx [-8, -79/10, -78/10] (-791/100)) 0 =
      -79/10 := by
  have hmapne : ∀ (f : ℚ → ℚ) (l : List ℚ), l ≠ [] → l.map f ≠ [] := by
    intro f l hl hmap
    exact hl (List.map_eq_nil_iff.mp hmap)
  refine ⟨?_, ?_, ?_, ?_⟩
  · intro latVals lat hne
    obtain ⟨h1, h2⟩ := argmin_idx_spec _ (hmapne (fun c => ratAbs (c - lat)) latVals hne)
    rw [List.length_map] at h1
    refine ⟨h1, ?_⟩
    intro j hj
    have h3 := h2 j (by rw [List.length_map]; exact hj)
    rwa [getD_map_of_lt _ _ h1, getD_map_of_lt _ _ hj] at h3
  · intro lonVals lon hne
    obtain ⟨h1, h2⟩ := argmin_idx_spec _
      (hmapne (fun c => ratMin (ratAbs (c - lon)) (ratAbs (c - pyMod lon 360))) lonVals hne)
    rw [List.length_map] at h1
    refine ⟨h1, ?_⟩
    intro j hj
    have h3 := h2 j (by rw [List.length_map]; exact hj)
    rwa [getD_map_of_lt _ _ h1, getD_map_of_lt _ _ hj] at h3
  · norm_num [select_lon_idx, argmin_idx, ratMin, ratAbs, pyMod, Int.floor_eq_iff]
  · norm_num [select_lon_idx, argmin_idx, ratMin, ratAbs, pyMod, Int.floor_eq_iff]

/-- Witness for C6: the selector applied to a concrete two-point axis, with
the optimality inequality instantiated at index 1. -/
theorem c6_witness :
    select_lat_idx [1, 2] 0 < [(1 : ℚ), 2].length ∧
    ratAbs ([(1 : ℚ), 2].getD (select_lat_idx [1, 2] 0) 0 - 0) ≤
      ratAbs ([(1 : ℚ), 2].getD 1 0 - 0) ∧
    select_lon_idx [1, 2] 0 < [(1 : ℚ), 2].length :=
  ⟨(c6_theorem.1 [1, 2] 0 (List.cons_ne_nil 1 [2])).1,
   (c6_theorem.1 [1, 2] 0 (List.cons_ne_nil 1 [2])).2 1 (by norm_num),
   (c6_theorem.2.1 [1, 2] 0 (List.cons_ne_nil 1 [2])).1⟩

/-! ### Temporal aggregator and unit normalizer

Source: `src/scripts/update_era5.py` `_process_downloaded_nc` (lines
122-159): the canonical columns kept (line 138), the `groupby("date")`
aggregation driven by `DAILY_AGG` (lines 32-39, 143-145), and the
per-column unit conversions (lines 147-156).  Hourly timestamps are hours
since an epoch, so `pd.to_datetime(...).dt.normalize()` is division by 24;
a column missing from the frame is `none` in every row of the daily
output. -/

inductive Col where
  | temperature
  | dewpoint
  | pressure
  | wind_speed
  | precipitation
  | radiation
deriving DecidableEq

inductive AggKind where
  | mean
  | sum
deriving DecidableEq

/-- Lines 32-39: the per-field reduction policy. -/
def DAILY_AGG : Col → AggKind
  | .precipitation => .sum
  | .radiation => .sum
  | _ => .mean

/-- One hourly record after renaming and field selection. -/
structure HRow where
  time : Nat
  val : Col → ℚ

/-- One daily record; `none` marks a column absent from the frame. -/
structure DRow where
  date : Nat
  val : Col → Option ℚ

/-- `pd.to_datetime(df["time"]).dt.normalize()` on hour counts. -/
def dateKey (t : Nat) : Nat := t / 24

/-- The group keys of `df.groupby("date")`: distinct dates, ascending
(pandas `groupby` sorts group keys by default). -/
def dateKeys (rows : List HRow) : List Nat :=
  List.insertionSort (fun a b => a ≤ b) ((rows.map (fun r => dateKey r.time)).dedup)

/-- The rows of one `groupby` group. -/
def groupRows (rows : List HRow) (d : Nat) : List HRow :=
  rows.filter (fun r => dateKey r.time == d)

/-- pandas `"mean"` / `"sum"` reductions. -/
def aggregate (k : AggKind) (xs : List ℚ) : ℚ :=
  match k with
  | .mean => xs.sum / (xs.length : ℚ)
  | .sum => xs.sum

/-- Lines 143-145: `df.groupby("date").agg({k: DAILY_AGG[k] for k in
DAILY_AGG if k in df.columns})`.  `cols` records which canonical columns the
frame carries. -/
def daily_agg (cols : Col → Bool) (rows : List HRow) : List DRow :=
  (dateKeys rows).map (fun d =>
    ⟨d, fun c =>
      if cols c then
        some (aggregate (DAILY_AGG c) ((groupRows rows d).map (fun r => r.val c)))
      else none⟩)

/-- Lines 147-156 as a single per-column pass: the `if col in df_daily.columns`
guard is the `Option.map` (an absent column stays absent). -/
def conv_col (c0 : Col) (f : ℚ → ℚ) (l : List DRow) : List DRow :=
  l.map (fun r => ⟨r.date, fun c => if c = c0 then (r.val c).map f else r.val c⟩)

/-- Lines 147-156 in program order: temperature and dewpoint −273.15,
pressure ÷1000, precipitation ×1000, radiation ÷1e6; `wind_speed` has no
conversion. -/
def convert_units (l : List DRow) : List DRow :=
  conv_col .radiation (fun x => x / 1000000)
    (conv_col .precipitation (fun x => x * 1000)
      (conv_col .pressure (fun x => x / 1000)
        (conv_col .dewpoint (fun x => x - 27315/100)
          (conv_col .temperature (fun x => x - 27315/100) l))))

/-- The net per-field conversion the chain of lines 147-156 amounts to. -/
def era5_unit_conv (c : Col) (x : ℚ) : ℚ :=
  match c with
  | .temperature => x - 27315/100
  | .dewpoint => x - 27315/100
  | .pressure => x / 1000
  | .precipitation => x * 1000
  | .radiation => x / 1000000
  | .wind_speed => x

theorem daily_agg_dates (cols : Col → Bool) (rows : List HRow) :
    (daily_agg cols rows).map (fun r => r.date) = dateKeys rows := by
  simp [daily_agg, List.map_map, Function.comp_def]

/-- The 24 hourly records of the spec's aggregation example: one calendar
date, precipitation 0.5 every hour, every other field 10.0. -/
def exampleRows : List HRow :=
  (List.range 24).map (fun h =>
    ⟨h, fun c => match c with | .precipitation => 1/2 | _ => 10⟩)

/-- C7.  `daily_agg` produces exactly one output record per distinct
calendar date of the input (no duplicate dates, and a date appears in the
output iff some input row normalizes to it); the reduction policy is mean
for temperature, dewpoint, pressure, wind_speed and sum for precipitation,
radiation; and on 24 hourly records of one date with precipitation 0.5 and
temperature 10.0 throughout, the daily aggregate has precipitation 12.0 and
temperature 10.0. -/
theorem c7_theorem :
    (∀ (cols : Col → Bool) (rows : List HRow),
      ((daily_agg cols rows).map (fun r => r.date)).Nodup) ∧
    (∀ (cols : Col → Bool) (rows : List HRow) (d : Nat),
      d ∈ (daily_agg cols rows).map (fun r => r.date) ↔
        d ∈ rows.map (fun r => dateKey r.time)) ∧
    (DAILY_AGG .temperature = .mean ∧ DAILY_AGG .dewpoint = .mean ∧
      DAILY_AGG .pressure = .mean ∧ DAILY_AGG .wind_speed = .mean ∧
      DAILY_AGG .precipitation = .sum ∧ DAILY_AGG .radiation = .sum) ∧
    (daily_agg (fun _ => true) exampleRows).map
        (fun r => (r.date, r.val .precipitation, r.val .temperature)) =
      [(0, some 12, some 10)] := by
  refine ⟨?_, ?_, ⟨rfl, rfl, rfl, rfl, rfl, rfl⟩, ?_⟩
  · intro cols rows
    rw [daily_agg_dates, dateKeys]
    exact ((List.perm_insertionSort _ _).nodup_iff).mpr (List.nodup_dedup _)
  · intro cols rows d
    rw [daily_agg_dates, dateKeys, (List.perm_insertionSort _ _).mem_iff, List.mem_dedup]
  · norm_num [daily_agg, exampleRows, dateKeys, groupRows, dateKey, aggregate,
      DAILY_AGG, List.range_succ]

theorem convert_units_getElem (l : List DRow) (i : Nat) :
    (convert_units l)[i]? =
      (l[i]?).map (fun r => ⟨r.date, fun c => (r.val c).map (era5_unit_conv c)⟩) := by
  simp only [convert_units, conv_col, List.getElem?_map]
  cases l[i]? with
  | none => rfl
  | some r =>
    simp only [Option.map_some']
    congr 1
    refine congrArg (DRow.mk r.date) ?_
    funext c
    cases c <;> simp [era5_unit_conv] <;> cases r.val Col.wind_speed <;> rfl

/-- C8.  The conversion chain touches each present field exactly once, with
the provider's factors: temperature and dewpoint −273.15, pressure ÷1000,
precipitation ×1000, radiation ÷1e6 (wind_speed untouched); a Kelvin
temperature of 300.0 becomes exactly 26.85, hence within 1e-6 of it; and a
field absent from the frame stays absent. -/
theorem c8_theorem :
    (∀ (l : List DRow) (i : Nat),
      (convert_units l)[i]? =
        (l[i]?).map (fun r => ⟨r.date, fun c => (r.val c).map (era5_unit_conv c)⟩)) ∧
    (∀ x : ℚ, era5_unit_conv .temperature x = x - 27315/100 ∧
      era5_unit_conv .dewpoint x = x - 27315/100 ∧
      era5_unit_conv .pressure x = x / 1000 ∧
      era5_unit_conv .precipitation x = x * 1000 ∧
      era5_unit_conv .radiation x = x / 1000000 ∧
      era5_unit_conv .wind_speed x = x) ∧
    era5_unit_conv .temperature 300 = 2685/100 ∧
    ratAbs (era5_unit_conv .temperature 300 - 2685/100) ≤ 1/1000000 ∧
    (∀ (l : List DRow) (i : Nat) (r : DRow) (c : Col),
      l[i]? = some r → r.val c = none →
      ∃ r', (convert_units l)[i]? = some r' ∧ r'.val c = none) := by
  refine ⟨convert_units_getElem, ?_, by norm_num [era5_unit_conv], ?_, ?_⟩
  · intro x
    exact ⟨rfl, rfl, rfl, rfl, rfl, rfl⟩
  · have h300 : era5_unit_conv .temperature 300 = 2685/100 := by
      norm_num [era5_unit_conv]
    rw [h300]
    norm_num [ratAbs]
  · intro l i r c hi hc
    refine ⟨⟨r.date, fun c => (r.val c).map (era5_unit_conv c)⟩, ?_, ?_⟩
    · rw [convert_units_getElem, hi, Option.map_some']
    · simp only [hc, Option.map_none']

/-- Witness for C8: a one-row daily frame with an absent temperature column
keeps it absent through the conversion chain. -/
theorem c8_witness :
    ∃ r', (convert_units [⟨0, fun _ => none⟩])[0]? = some r' ∧
      r'.val Col.temperature = none :=
  c8_theorem.2.2.2.2 [⟨0, fun _ => none⟩] 0 ⟨0, fun _ => none⟩ Col.temperature rfl rfl
